import Mathlib

set_option maxRecDepth 4000

namespace DataManager

/-! ## Character-level model of the JavaScript string primitives used by
`UserDataFormatter` (src/util/src/formatter.ts).

JavaScript strings are modelled as `List Char` (with `String` wrappers at the
API boundary), `null`/`undefined` arguments as `Option.none`, and a thrown
`Error` as `Except.error`. -/

/-- The ECMAScript WhiteSpace and LineTerminator character classes: the set of
characters removed by `String.prototype.trim` and matched by the regex class
`\s`. -/
def jsWhitespace (c : Char) : Bool :=
  let n := c.toNat
  (9 ≤ n && n ≤ 13) || n == 32 || n == 160 || n == 0x1680 ||
  (0x2000 ≤ n && n ≤ 0x200A) || n == 0x2028 || n == 0x2029 ||
  n == 0x202F || n == 0x205F || n == 0x3000 || n == 0xFEFF

/-- Model of `String.prototype.trim`: removes leading and trailing
`jsWhitespace` characters. -/
def jsTrimL (l : List Char) : List Char :=
  ((l.dropWhile jsWhitespace).reverse.dropWhile jsWhitespace).reverse

/-- Model of `String.prototype.toLowerCase` on the Basic Latin range:
maps `A`-`Z` to `a`-`z` and leaves every other character unchanged. -/
def asciiLower (c : Char) : Char :=
  if 65 ≤ c.toNat && c.toNat ≤ 90 then Char.ofNat (c.toNat + 32) else c

/-- Model of `String.prototype.toUpperCase` on the Basic Latin range:
maps `a`-`z` to `A`-`Z` and leaves every other character unchanged. -/
def asciiUpper (c : Char) : Char :=
  if 97 ≤ c.toNat && c.toNat ≤ 122 then Char.ofNat (c.toNat - 32) else c

/-- The regex class `\d` of ECMAScript: exactly the ASCII digits `0`-`9`. -/
def isDigitB (c : Char) : Bool :=
  48 ≤ c.toNat && c.toNat ≤ 57

/-- The regex class `[A-Z]`. -/
def isUpperAZ (c : Char) : Bool :=
  65 ≤ c.toNat && c.toNat ≤ 90

/-- Model of `String.prototype.split` with a single-character separator:
splits on every occurrence of `sep`; adjacent separators yield empty parts,
and the empty string splits to `[[]]`, as in JavaScript. -/
def splitChar (sep : Char) : List Char → List (List Char)
  | [] => [[]]
  | c :: rest =>
    if c = sep then [] :: splitChar sep rest
    else
      match splitChar sep rest with
      | [] => [[c]]
      | p :: ps => (c :: p) :: ps

/-- The single error kind of the formatter: every failure is a thrown
`Error` with a message (the spec's `InvalidInput`). -/
inductive FmtError where
  | invalidInput (msg : String)
deriving DecidableEq, Repr

/-- Abbreviation for raising `InvalidInput` with the source's message text. -/
def errE (m : String) : Except FmtError α :=
  .error (.invalidInput m)

/-- True exactly when a result is a thrown `InvalidInput` error. -/
def failsInvalid : Except FmtError α → Bool
  | .error (.invalidInput _) => true
  | .ok _ => false

/-! ## The six field normalizers, character-level versions. -/

/-- Character-level model of `UserDataFormatter.formatEmailAddress`. -/
def formatEmailAddressL (l : List Char) : Except FmtError (List Char) :=
  if l = [] then errE "Email address is null or empty."
  else
    let t := jsTrimL l
    if t = [] then errE "Email address is empty or blank."
    else if t.contains ' ' then
      errE "Email address contains intermediate whitespace."
    else
      match splitChar '@' (t.map asciiLower) with
      | [u, d] =>
        if u = [] then errE "Email address without the domain is empty"
        else if d = [] then errE "Domain of email address is empty"
        else
          let u2 := if d = "gmail.com".toList || d = "googlemail.com".toList
            then u.filter (fun c => c != '.') else u
          if u2 = [] then
            errE "Email address without the domain name is empty after normalization"
          else .ok (u2 ++ '@' :: d)
      | _ => errE "Email is not of the form user@domain"

/-- Character-level model of `UserDataFormatter.formatPhoneNumber`. -/
def formatPhoneNumberL (l : List Char) : Except FmtError (List Char) :=
  if l = [] then errE "Phone number is null or empty."
  else
    let t := jsTrimL l
    if t = [] then errE "Phone number is empty or blank."
    else
      let ds := t.filter isDigitB
      if ds = [] then errE "Phone number contains no digits."
      else .ok ('+' :: ds)

/-- One alternative of the given-name regex
`^(?:mr|mrs|ms|dr)\.(?:\s|$)`: if `l` starts with `p` followed by a dot and
then either the end of the string or one whitespace character, return the
remainder after the match (the matched whitespace character is consumed). -/
def tryHonorific (p l : List Char) : Option (List Char) :=
  if l.take (p.length + 1) = p ++ ['.'] then
    match l.drop (p.length + 1) with
    | [] => some []
    | c :: cs => if jsWhitespace c then some cs else none
  else none

/-- Model of `trimmedGivenName.replace(/^(?:mr|mrs|ms|dr)\.(?:\s|$)/, '')`:
removes a single leading honorific, if present.  (The four alternatives are
mutually exclusive, so the regex alternation order is immaterial.) -/
def stripHonorific (l : List Char) : List Char :=
  match tryHonorific ['m', 'r'] l with
  | some r => r
  | none =>
    match tryHonorific ['m', 'r', 's'] l with
    | some r => r
    | none =>
      match tryHonorific ['m', 's'] l with
      | some r => r
      | none =>
        match tryHonorific ['d', 'r'] l with
        | some r => r
        | none => l

/-- Character-level model of `UserDataFormatter.formatGivenName`. -/
def formatGivenNameL (l : List Char) : Except FmtError (List Char) :=
  if l = [] then errE "Given name is null or empty."
  else
    let t := (jsTrimL l).map asciiLower
    if t = [] then errE "Given name is empty or blank."
    else
      let w := jsTrimL (stripHonorific t)
      if w = [] then errE "Given name consists solely of a prefix."
      else .ok w

/-- The family-name suffix tokens `jr\.?|sr\.?|2nd|3rd|ii|iii|iv|v|vi|cpa|dc|dds|vm|jd|md|phd`,
written out as the finite set of exact strings the alternation can match. -/
def suffixTokens : List (List Char) :=
  [['j', 'r'], ['j', 'r', '.'], ['s', 'r'], ['s', 'r', '.'],
   ['2', 'n', 'd'], ['3', 'r', 'd'],
   ['i', 'i'], ['i', 'i', 'i'], ['i', 'v'], ['v'], ['v', 'i'],
   ['c', 'p', 'a'], ['d', 'c'], ['d', 'd', 's'], ['v', 'm'],
   ['j', 'd'], ['m', 'd'], ['p', 'h', 'd']]

/-- Matches the `(?:token)\s?$` part of the family-name suffix regex against
an entire string: `u` is a suffix token, optionally followed by one
whitespace character. -/
def endTokenB (u : List Char) : Bool :=
  decide (u ∈ suffixTokens) ||
  (match u.getLast? with
   | some c => jsWhitespace c && decide (u.dropLast ∈ suffixTokens)
   | none => false)

/-- Whether the family-name suffix regex
`(?:,\s*|\s+)(?:jr\.?|sr\.?|2nd|3rd|ii|iii|iv|v|vi|cpa|dc|dds|vm|jd|md|phd)\s?$`
matches starting at the first character of `t` (the `$` anchor forces every
match to extend to the end of the string, so a match consumes all of `t`). -/
def isSuffMatch : List Char → Bool
  | [] => false
  | c :: r =>
    if c = ',' || jsWhitespace c then endTokenB (r.dropWhile jsWhitespace)
    else false

/-- One `withoutSuffix.replace(suffixPattern, '')` step: the regex engine
finds the leftmost position where the (end-anchored) suffix pattern matches
and deletes from there to the end; `none` when `suffixPattern.test` is false. -/
def stripOnce : List Char → Option (List Char)
  | [] => none
  | c :: rest =>
    if isSuffMatch (c :: rest) then some []
    else
      match stripOnce rest with
      | some p => some (c :: p)
      | none => none

/-- The `while (suffixPattern.test(withoutSuffix))` loop, with explicit fuel
(each replacement strictly shortens the string, so `l.length` fuel always
suffices). -/
def stripLoop : Nat → List Char → List Char
  | 0, l => l
  | n + 1, l =>
    match stripOnce l with
    | none => l
    | some l2 => stripLoop n l2

/-- Character-level model of `UserDataFormatter.formatFamilyName`. -/
def formatFamilyNameL (l : List Char) : Except FmtError (List Char) :=
  if l = [] then errE "Family name is null or empty."
  else
    let t := (jsTrimL l).map asciiLower
    if t = [] then errE "Family name is empty or blank."
    else
      let w := stripLoop t.length t
      if w = [] then errE "Family name consists solely of a suffix."
      else .ok w

/-- Character-level model of `UserDataFormatter.formatRegionCode`. -/
def formatRegionCodeL (l : List Char) : Except FmtError (List Char) :=
  if l = [] then errE "Region code is null or empty."
  else
    let t := (jsTrimL l).map asciiUpper
    if t = [] then errE "Region code is empty or blank."
    else if t.length ≠ 2 then
      errE ("Region code length is " ++ toString t.length ++ ". Length must be 2")
    else if !(!t.isEmpty && t.all isUpperAZ) then
      errE "Region code contains characters other than A-Z"
    else .ok t

/-- Character-level model of `UserDataFormatter.formatPostalCode`. -/
def formatPostalCodeL (l : List Char) : Except FmtError (List Char) :=
  if l = [] then errE "Postal code is null or empty."
  else
    let t := jsTrimL l
    if t = [] then errE "Postal code is empty or blank."
    else .ok t

/-! ## String-level API, with `Option.none` playing the role of a
`null`/`undefined` argument (which the source's `!x` checks catch exactly
like the empty string). -/

/-- Model of `UserDataFormatter.formatEmailAddress`. -/
def formatEmailAddress : Option String → Except FmtError String
  | none => errE "Email address is null or empty."
  | some s => (formatEmailAddressL s.toList).map List.asString

/-- Model of `UserDataFormatter.formatPhoneNumber`. -/
def formatPhoneNumber : Option String → Except FmtError String
  | none => errE "Phone number is null or empty."
  | some s => (formatPhoneNumberL s.toList).map List.asString

/-- Model of `UserDataFormatter.formatGivenName`. -/
def formatGivenName : Option String → Except FmtError String
  | none => errE "Given name is null or empty."
  | some s => (formatGivenNameL s.toList).map List.asString

/-- Model of `UserDataFormatter.formatFamilyName`. -/
def formatFamilyName : Option String → Except FmtError String
  | none => errE "Family name is null or empty."
  | some s => (formatFamilyNameL s.toList).map List.asString

/-- Model of `UserDataFormatter.formatRegionCode`. -/
def formatRegionCode : Option String → Except FmtError String
  | none => errE "Region code is null or empty."
  | some s => (formatRegionCodeL s.toList).map List.asString

/-- Model of `UserDataFormatter.formatPostalCode`. -/
def formatPostalCode : Option String → Except FmtError String
  | none => errE "Postal code is null or empty."
  | some s => (formatPostalCodeL s.toList).map List.asString

/-! ## Digest and encoders.

`hashString` calls Node's `crypto.createHash('sha256').update(s).digest()`,
which hashes the UTF-8 bytes of `s` with standard (FIPS 180-4) SHA-256; the
encoders call `Buffer.prototype.toString('hex' | 'base64')`.  These library
routines are embedded below as executable Lean functions over `Nat` byte
lists; the repository's own recorded digests and encodings (its test
vectors) are proved against them further down. -/

/-- UTF-8 encoding of one Unicode scalar value. -/
def utf8Char (n : Nat) : List Nat :=
  if n < 0x80 then [n]
  else if n < 0x800 then [0xC0 + n / 64, 0x80 + n % 64]
  else if n < 0x10000 then
    [0xE0 + n / 4096, 0x80 + n / 64 % 64, 0x80 + n % 64]
  else
    [0xF0 + n / 262144, 0x80 + n / 4096 % 64, 0x80 + n / 64 % 64, 0x80 + n % 64]

/-- UTF-8 bytes of a string (the default encoding used by Node's
`Hash.update` on string input). -/
def utf8Bytes (s : String) : List Nat :=
  (s.toList.map (fun c => utf8Char c.toNat)).flatten

/-- 32-bit right rotation. -/
def rotr32 (k n : Nat) : Nat :=
  ((n >>> k) ||| (n <<< (32 - k))) % 4294967296

/-- The SHA-256 round constants. -/
def shaK : List Nat :=
  [1116352408, 1899447441, 3049323471, 3921009573,
   961987163, 1508970993, 2453635748, 2870763221,
   3624381080, 310598401, 607225278, 1426881987,
   1925078388, 2162078206, 2614888103, 3248222580,
   3835390401, 4022224774, 264347078, 604807628,
   770255983, 1249150122, 1555081692, 1996064986,
   2554220882, 2821834349, 2952996808, 3210313671,
   3336571891, 3584528711, 113926993, 338241895,
   666307205, 773529912, 1294757372, 1396182291,
   1695183700, 1986661051, 2177026350, 2456956037,
   2730485921, 2820302411, 3259730800, 3345764771,
   3516065817, 3600352804, 4094571909, 275423344,
   430227734, 506948616, 659060556, 883997877,
   958139571, 1322822218, 1537002063, 1747873779,
   1955562222, 2024104815, 2227730452, 2361852424,
   2428436474, 2756734187, 3204031479, 3329325298]

/-- The SHA-256 working state: eight 32-bit words. -/
structure Sha8 where
  a : Nat
  b : Nat
  c : Nat
  d : Nat
  e : Nat
  f : Nat
  g : Nat
  h : Nat
deriving DecidableEq, Repr

/-- The SHA-256 initial hash value. -/
def shaInit : Sha8 :=
  ⟨1779033703, 3144134277, 1013904242, 2773480762,
   1359893119, 2600822924, 528734635, 1541459225⟩

/-- One round of the SHA-256 compression function, consuming one round
constant together with one word of the message schedule. -/
def shaRound (s : Sha8) (kw : Nat × Nat) : Sha8 :=
  let s1 := rotr32 6 s.e ^^^ rotr32 11 s.e ^^^ rotr32 25 s.e
  let ch := (s.e &&& s.f) ^^^ ((4294967295 ^^^ s.e) &&& s.g)
  let t1 := (s.h + s1 + ch + kw.1 + kw.2) % 4294967296
  let s0 := rotr32 2 s.a ^^^ rotr32 13 s.a ^^^ rotr32 22 s.a
  let mj := (s.a &&& s.b) ^^^ (s.a &&& s.c) ^^^ (s.b &&& s.c)
  let t2 := (s0 + mj) % 4294967296
  ⟨(t1 + t2) % 4294967296, s.a, s.b, s.c,
   (s.d + t1) % 4294967296, s.e, s.f, s.g⟩

/-- Word `t` of the message schedule, computed from the words built so far
(`w.length = t`). -/
def schedWord (w : List Nat) : Nat :=
  let t := w.length
  let x15 := w.getD (t - 15) 0
  let x2 := w.getD (t - 2) 0
  let s0 := rotr32 7 x15 ^^^ rotr32 18 x15 ^^^ (x15 >>> 3)
  let s1 := rotr32 17 x2 ^^^ rotr32 19 x2 ^^^ (x2 >>> 10)
  (w.getD (t - 16) 0 + s0 + w.getD (t - 7) 0 + s1) % 4294967296

/-- Extends a 16-word block to the full 64-word message schedule
(`n` more words to append). -/
def buildSched : Nat → List Nat → List Nat
  | 0, w => w
  | n + 1, w => buildSched n (w ++ [schedWord w])

/-- SHA-256 compression of one 16-word block into the running hash value. -/
def compressBlock (s : Sha8) (block : List Nat) : Sha8 :=
  let w := buildSched 48 block
  let r := (w.zip shaK).foldl shaRound s
  ⟨(s.a + r.a) % 4294967296, (s.b + r.b) % 4294967296,
   (s.c + r.c) % 4294967296, (s.d + r.d) % 4294967296,
   (s.e + r.e) % 4294967296, (s.f + r.f) % 4294967296,
   (s.g + r.g) % 4294967296, (s.h + r.h) % 4294967296⟩

/-- Big-endian 8-byte rendering of the 64-bit message length field. -/
def lenBytes64 (n : Nat) : List Nat :=
  [n / 72057594037927936 % 256, n / 281474976710656 % 256,
   n / 1099511627776 % 256, n / 4294967296 % 256,
   n / 16777216 % 256, n / 65536 % 256, n / 256 % 256, n % 256]

/-- SHA-256 padding: append `0x80`, then zeros up to 56 bytes mod 64, then
the bit length as a 64-bit big-endian integer. -/
def padMsg (m : List Nat) : List Nat :=
  let zeros := (64 + 55 - m.length % 64) % 64
  m ++ 0x80 :: (List.replicate zeros 0 ++ lenBytes64 (8 * m.length))

/-- Packs bytes into 32-bit big-endian words. -/
def toWords : List Nat → List Nat
  | b0 :: b1 :: b2 :: b3 :: rest =>
    (((b0 * 256 + b1) * 256 + b2) * 256 + b3) :: toWords rest
  | _ => []

/-- Splits a padded message into 16-word blocks (`fuel` bounds the number of
steps; the byte length of the list always suffices). -/
def chunkBlocks : Nat → List Nat → List (List Nat)
  | 0, _ => []
  | _ + 1, [] => []
  | n + 1, l => toWords (l.take 64) :: chunkBlocks n (l.drop 64)

/-- Big-endian bytes of a 32-bit word. -/
def wordBytes (w : Nat) : List Nat :=
  [w / 16777216 % 256, w / 65536 % 256, w / 256 % 256, w % 256]

/-- SHA-256 of a byte sequence (FIPS 180-4), the digest Node's
`crypto.createHash('sha256')` computes. -/
def sha256 (m : List Nat) : List Nat :=
  let p := padMsg m
  let s := (chunkBlocks p.length p).foldl compressBlock shaInit
  wordBytes s.a ++ wordBytes s.b ++ wordBytes s.c ++ wordBytes s.d ++
  wordBytes s.e ++ wordBytes s.f ++ wordBytes s.g ++ wordBytes s.h

/-- The lowercase hexadecimal digits. -/
def hexDig (n : Nat) : Char :=
  "0123456789abcdef".toList.getD n '0'

/-- Character-level model of `Buffer.prototype.toString('hex')`: two
lowercase hexadecimal digits per byte, no separators. -/
def hexEncodeL (b : List Nat) : List Char :=
  (b.map (fun x => [hexDig (x / 16 % 16), hexDig (x % 16)])).flatten

/-- The RFC 4648 base64 alphabet. -/
def b64Dig (n : Nat) : Char :=
  "ABCDEFGHIJKLMNOPQRSTUVWXYZabcdefghijklmnopqrstuvwxyz0123456789+/".toList.getD n 'A'

/-- Character-level model of `Buffer.prototype.toString('base64')`:
RFC 4648 base64 with `=` padding. -/
def base64EncodeL : List Nat → List Char
  | [] => []
  | [a] => [b64Dig (a / 4 % 64), b64Dig (a % 4 * 16), '=', '=']
  | [a, b] =>
    [b64Dig (a / 4 % 64), b64Dig ((a % 4 * 16 + b / 16) % 64),
     b64Dig (b % 16 * 4), '=']
  | a :: b :: c :: rest =>
    b64Dig (a / 4 % 64) :: b64Dig ((a % 4 * 16 + b / 16) % 64) ::
    b64Dig ((b % 16 * 4 + c / 64) % 64) :: b64Dig (c % 64) ::
    base64EncodeL rest

/-! ## Reference decoders.

Modelled from the spec: the spec's round-trip property appeals to "standard
hex decoding" and standard base64 decoding, which are not part of the
repository; the two decoders below transcribe those standard codecs. -/

/-- Value of one lowercase hexadecimal digit. -/
def hexVal (c : Char) : Option Nat :=
  (List.range 16).findIdx? (fun n => hexDig n = c) |>.map (fun i => i)

/-- Modelled from the spec: standard hexadecimal decoding, two digits per
byte. -/
def specHexDecode : List Char → Option (List Nat)
  | [] => some []
  | c1 :: c2 :: rest =>
    match hexVal c1, hexVal c2, specHexDecode rest with
    | some hi, some lo, some tail => some ((hi * 16 + lo) :: tail)
    | _, _, _ => none
  | _ => none

/-- Value of one base64 digit. -/
def b64Val (c : Char) : Option Nat :=
  (List.range 64).findIdx? (fun n => b64Dig n = c) |>.map (fun i => i)

/-- Modelled from the spec: standard RFC 4648 base64 decoding with `=`
padding. -/
def specBase64Decode : List Char → Option (List Nat)
  | [] => some []
  | p :: q :: r :: s :: rest =>
    match b64Val p, b64Val q with
    | some x, some y =>
      if r = '=' then
        if s = '=' ∧ rest = [] then some [x * 4 + y / 16] else none
      else
        match b64Val r with
        | some z =>
          if s = '=' then
            if rest = [] then some [x * 4 + y / 16, y % 16 * 16 + z / 4]
            else none
          else
            match b64Val s, specBase64Decode rest with
            | some w, some tail =>
              some ((x * 4 + y / 16) :: (y % 16 * 16 + z / 4) ::
                (z % 4 * 64 + w) :: tail)
            | _, _ => none
        | none => none
    | _, _ => none
  | _ => none

/-! ## Digest, encoders and process operations at the API level. -/

/-- The `Encoding` enum of the source is string-valued
(`HEX = 'hex'`, `BASE64 = 'base64'`), and `encode` compares the raw string,
so the model keeps the underlying string type (an unrecognized value can
reach `encode`, as in the source's final `else` branch). -/
abbrev Encoding := String

/-- Model of `Encoding.HEX`. -/
def Encoding.HEX : Encoding := "hex"

/-- Model of `Encoding.BASE64`. -/
def Encoding.BASE64 : Encoding := "base64"

/-- Model of `UserDataFormatter.hashString`: SHA-256 digest bytes of the UTF-8
encoding of the argument. -/
def hashString : Option String → Except FmtError (List Nat)
  | none => errE "String is null."
  | some s =>
    if jsTrimL s.toList = [] then errE "String is empty or blank."
    else .ok (sha256 (utf8Bytes s))

/-- Model of `UserDataFormatter.hexEncode` (an empty `Buffer` is truthy in
JavaScript, so `none` models only `null`/`undefined` and the empty byte
sequence reaches the length check). -/
def hexEncode : Option (List Nat) → Except FmtError String
  | none => errE "Byte array is null."
  | some b =>
    if b.length = 0 then errE "Byte array is empty."
    else .ok (hexEncodeL b).asString

/-- Model of `UserDataFormatter.base64Encode`. -/
def base64Encode : Option (List Nat) → Except FmtError String
  | none => errE "Byte array is null."
  | some b =>
    if b.length = 0 then errE "Byte array is empty."
    else .ok (base64EncodeL b).asString

/-- The private `UserDataFormatter.encode`. -/
def encode (bytes : List Nat) (encoding : Encoding) : Except FmtError String :=
  if encoding = "hex" then hexEncode (some bytes)
  else if encoding = "base64" then base64Encode (some bytes)
  else errE ("Invalid encoding: " ++ encoding)

/-- The private `UserDataFormatter.hashAndEncode`. -/
def hashAndEncode (normalizedString : String) (encoding : Encoding) :
    Except FmtError String :=
  (hashString (some normalizedString)).bind (fun bytes => encode bytes encoding)

/-- Model of `UserDataFormatter.processEmailAddress`. -/
def processEmailAddress (email : Option String) (encoding : Encoding) :
    Except FmtError String :=
  (formatEmailAddress email).bind (fun n => hashAndEncode n encoding)

/-- Model of `UserDataFormatter.processPhoneNumber`. -/
def processPhoneNumber (phoneNumber : Option String) (encoding : Encoding) :
    Except FmtError String :=
  (formatPhoneNumber phoneNumber).bind (fun n => hashAndEncode n encoding)

/-- Model of `UserDataFormatter.processGivenName`. -/
def processGivenName (givenName : Option String) (encoding : Encoding) :
    Except FmtError String :=
  (formatGivenName givenName).bind (fun n => hashAndEncode n encoding)

/-- Model of `UserDataFormatter.processFamilyName`. -/
def processFamilyName (familyName : Option String) (encoding : Encoding) :
    Except FmtError String :=
  (formatFamilyName familyName).bind (fun n => hashAndEncode n encoding)

/-- Model of `UserDataFormatter.processRegionCode`. -/
def processRegionCode (regionCode : Option String) : Except FmtError String :=
  formatRegionCode regionCode

/-- Model of `UserDataFormatter.processPostalCode`. -/
def processPostalCode (postalCode : Option String) : Except FmtError String :=
  formatPostalCode postalCode

/-- Whether a character list is free of leading whitespace (spec-side
predicate for the NormalizedField invariant). -/
def noLeadWS (l : List Char) : Bool :=
  match l.head? with
  | some c => !jsWhitespace c
  | none => true

/-- Whether a character list is free of trailing whitespace (spec-side
predicate for the NormalizedField invariant). -/
def noTrailWS (l : List Char) : Bool :=
  match l.getLast? with
  | some c => !jsWhitespace c
  | none => true

/-! ## Helper lemmas: characters and whitespace. -/

theorem ws_iff {c : Char} : jsWhitespace c = true ↔
    (9 ≤ c.toNat ∧ c.toNat ≤ 13) ∨ c.toNat = 32 ∨ c.toNat = 160 ∨
    c.toNat = 0x1680 ∨ (0x2000 ≤ c.toNat ∧ c.toNat ≤ 0x200A) ∨
    c.toNat = 0x2028 ∨ c.toNat = 0x2029 ∨ c.toNat = 0x202F ∨
    c.toNat = 0x205F ∨ c.toNat = 0x3000 ∨ c.toNat = 0xFEFF := by
  simp only [jsWhitespace, Bool.or_eq_true, Bool.and_eq_true, decide_eq_true_eq,
    Nat.beq_eq_true_eq]
  tauto

theorem not_ws_of_digit {c : Char} (h : isDigitB c = true) : jsWhitespace c = false := by
  rw [Bool.eq_false_iff]
  intro hw
  rw [ws_iff] at hw
  simp [isDigitB] at h
  omega

theorem not_ws_of_upperAZ {c : Char} (h : isUpperAZ c = true) : jsWhitespace c = false := by
  rw [Bool.eq_false_iff]
  intro hw
  rw [ws_iff] at hw
  simp [isUpperAZ] at h
  omega

theorem toNat_ofNat_small {n : Nat} (h : n < 55296) : (Char.ofNat n).toNat = n := by
  rw [Char.ofNat, dif_pos (Or.inl h)]
  rfl

theorem asciiLower_cases (c : Char) :
    ((asciiLower c).toNat = c.toNat + 32 ∧ 65 ≤ c.toNat ∧ c.toNat ≤ 90) ∨
    (asciiLower c = c ∧ ¬(65 ≤ c.toNat ∧ c.toNat ≤ 90)) := by
  unfold asciiLower
  split
  case isTrue h =>
    simp only [Bool.and_eq_true, decide_eq_true_eq] at h
    exact Or.inl ⟨toNat_ofNat_small (by omega), h.1, h.2⟩
  case isFalse h =>
    simp only [Bool.and_eq_true, decide_eq_true_eq] at h
    exact Or.inr ⟨rfl, h⟩

theorem ws_asciiLower (c : Char) : jsWhitespace (asciiLower c) = jsWhitespace c := by
  rcases asciiLower_cases c with ⟨h1, h2, h3⟩ | ⟨h1, _⟩
  · have ha : jsWhitespace (asciiLower c) = false := by
      rw [Bool.eq_false_iff]
      intro hw
      rw [ws_iff, h1] at hw
      omega
    have hb : jsWhitespace c = false := by
      rw [Bool.eq_false_iff]
      intro hw
      rw [ws_iff] at hw
      omega
    rw [ha, hb]
  · rw [h1]

theorem asciiLower_idem (c : Char) : asciiLower (asciiLower c) = asciiLower c := by
  rcases asciiLower_cases c with ⟨h1, h2, h3⟩ | ⟨h1, _⟩
  · rcases asciiLower_cases (asciiLower c) with ⟨_, _, g3⟩ | ⟨g1, _⟩
    · omega
    · exact g1
  · simp only [h1]

/-! ## Helper lemmas: trimming. -/

theorem jsTrimL_isPre (l : List Char) : jsTrimL l <+: l.dropWhile jsWhitespace := by
  have h : (l.dropWhile jsWhitespace).reverse.dropWhile jsWhitespace <:+
      (l.dropWhile jsWhitespace).reverse := List.dropWhile_suffix _
  have h2 := List.IsSuffix.reverse h
  rwa [List.reverse_reverse] at h2

theorem head?_of_isPre {l1 l2 : List Char} (h : l1 <+: l2) (hne : l1 ≠ []) :
    l2.head? = l1.head? := by
  obtain ⟨t, rfl⟩ := h
  cases l1 with
  | nil => exact absurd rfl hne
  | cons a as => rfl

theorem jsTrimL_head_not_ws {l : List Char} {c : Char}
    (h : (jsTrimL l).head? = some c) : jsWhitespace c = false := by
  have hne : jsTrimL l ≠ [] := by
    intro he
    rw [he] at h
    cases h
  have hh : (l.dropWhile jsWhitespace).head? = some c := by
    rw [head?_of_isPre (jsTrimL_isPre l) hne]
    exact h
  have hd := List.head?_dropWhile_not jsWhitespace l
  rw [hh] at hd
  exact hd

theorem jsTrimL_getLast_not_ws {l : List Char} {c : Char}
    (h : (jsTrimL l).getLast? = some c) : jsWhitespace c = false := by
  unfold jsTrimL at h
  rw [List.getLast?_reverse] at h
  have hd := List.head?_dropWhile_not jsWhitespace (l.dropWhile jsWhitespace).reverse
  rw [h] at hd
  exact hd

theorem dropWhile_eq_self_of_head {l : List Char}
    (h : ∀ c, l.head? = some c → jsWhitespace c = false) :
    l.dropWhile jsWhitespace = l := by
  cases l with
  | nil => rfl
  | cons a as => exact List.dropWhile_cons_of_neg (by simp [h a rfl])

theorem jsTrimL_eq_self {l : List Char}
    (h1 : ∀ c, l.head? = some c → jsWhitespace c = false)
    (h2 : ∀ c, l.getLast? = some c → jsWhitespace c = false) :
    jsTrimL l = l := by
  unfold jsTrimL
  rw [dropWhile_eq_self_of_head h1]
  rw [dropWhile_eq_self_of_head
    (fun c hc => h2 c (by rwa [List.head?_reverse] at hc))]
  exact List.reverse_reverse l

theorem jsTrimL_ne_nil_of_mem {l : List Char} {c : Char} (hc : c ∈ l)
    (hw : jsWhitespace c = false) : jsTrimL l ≠ [] := by
  intro h
  unfold jsTrimL at h
  rw [List.reverse_eq_nil_iff, List.dropWhile_eq_nil_iff] at h
  have h3 : ∀ x ∈ l, jsWhitespace x = true := by
    intro x hx
    rw [← List.takeWhile_append_dropWhile (p := jsWhitespace) (l := l)] at hx
    rcases List.mem_append.1 hx with h4 | h4
    · exact List.mem_takeWhile_imp h4
    · exact h x (by rwa [List.mem_reverse])
  rw [h3 c hc] at hw
  cases hw

theorem map_asciiLower_id {w : List Char} (h : ∀ c ∈ w, asciiLower c = c) :
    w.map asciiLower = w := by
  induction w with
  | nil => rfl
  | cons a as ih =>
    rw [List.map_cons, h a (List.mem_cons_self a as),
      ih (fun c hc => h c (List.mem_cons_of_mem a hc))]

/-! ## Helper lemmas: the family-name suffix loop. -/

theorem stripOnce_isPre : ∀ {l l2 : List Char}, stripOnce l = some l2 → l2 <+: l := by
  intro l
  induction l with
  | nil => intro l2 h; cases h
  | cons c rest ih =>
    intro l2 h
    unfold stripOnce at h
    split at h
    · cases h
      exact List.nil_prefix
    · cases hs : stripOnce rest with
      | none => rw [hs] at h; cases h
      | some p =>
        rw [hs] at h
        cases h
        exact List.cons_prefix_cons.2 ⟨rfl, ih hs⟩

theorem stripOnce_length : ∀ {l l2 : List Char}, stripOnce l = some l2 →
    l2.length < l.length := by
  intro l
  induction l with
  | nil => intro l2 h; cases h
  | cons c rest ih =>
    intro l2 h
    unfold stripOnce at h
    split at h
    · cases h
      simp
    · cases hs : stripOnce rest with
      | none => rw [hs] at h; cases h
      | some p =>
        rw [hs] at h
        cases h
        have := ih hs
        simp only [List.length_cons]
        omega

theorem stripLoop_isPre : ∀ (n : Nat) (l : List Char), stripLoop n l <+: l := by
  intro n
  induction n with
  | zero => intro l; exact ⟨[], List.append_nil _⟩
  | succ k ih =>
    intro l
    simp only [stripLoop]
    cases hs : stripOnce l with
    | none => exact ⟨[], List.append_nil _⟩
    | some l2 => exact (ih l2).trans (stripOnce_isPre hs)

theorem stripLoop_done : ∀ (n : Nat) (l : List Char), l.length ≤ n →
    stripOnce (stripLoop n l) = none := by
  intro n
  induction n with
  | zero =>
    intro l h
    have hl : l = [] := List.length_eq_zero.1 (Nat.le_zero.1 h)
    subst hl
    rfl
  | succ k ih =>
    intro l h
    simp only [stripLoop]
    cases hs : stripOnce l with
    | none => exact hs
    | some l2 =>
      have := stripOnce_length hs
      exact ih l2 (by omega)

theorem stripLoop_of_none {l : List Char} (h : stripOnce l = none) :
    ∀ n, stripLoop n l = l := by
  intro n
  cases n with
  | zero => rfl
  | succ k =>
    simp only [stripLoop]
    rw [h]

/-! ## Helper lemmas: success shapes of the normalizers. -/

theorem formatPhoneNumberL_ok {l w : List Char} (h : formatPhoneNumberL l = .ok w) :
    w = '+' :: (jsTrimL l).filter isDigitB ∧ (jsTrimL l).filter isDigitB ≠ [] := by
  simp only [formatPhoneNumberL] at h
  split at h
  · simp [errE] at h
  · split at h
    · simp [errE] at h
    · split at h
      · simp [errE] at h
      · rename_i h3
        simp only [Except.ok.injEq] at h
        exact ⟨h.symm, h3⟩

theorem formatGivenNameL_ok {l w : List Char} (h : formatGivenNameL l = .ok w) :
    w = jsTrimL (stripHonorific ((jsTrimL l).map asciiLower)) ∧ w ≠ [] := by
  simp only [formatGivenNameL] at h
  split at h
  · simp [errE] at h
  · split at h
    · simp [errE] at h
    · split at h
      · simp [errE] at h
      · rename_i h3
        simp only [Except.ok.injEq] at h
        subst h
        exact ⟨rfl, h3⟩

theorem formatFamilyNameL_ok {l w : List Char} (h : formatFamilyNameL l = .ok w) :
    w = stripLoop ((jsTrimL l).map asciiLower).length ((jsTrimL l).map asciiLower) ∧
      w ≠ [] := by
  simp only [formatFamilyNameL] at h
  split at h
  · simp [errE] at h
  · split at h
    · simp [errE] at h
    · split at h
      · simp [errE] at h
      · rename_i h3
        simp only [Except.ok.injEq] at h
        subst h
        exact ⟨rfl, h3⟩

theorem formatPostalCodeL_ok {l w : List Char} (h : formatPostalCodeL l = .ok w) :
    w = jsTrimL l ∧ w ≠ [] := by
  simp only [formatPostalCodeL] at h
  split at h
  · simp [errE] at h
  · split at h
    · simp [errE] at h
    · rename_i h2
      simp only [Except.ok.injEq] at h
      subst h
      exact ⟨rfl, h2⟩

theorem formatRegionCodeL_ok {l w : List Char} (h : formatRegionCodeL l = .ok w) :
    w = (jsTrimL l).map asciiUpper ∧ w.length = 2 ∧ w.all isUpperAZ = true := by
  simp only [formatRegionCodeL] at h
  split at h
  · simp [errE] at h
  · split at h
    · simp [errE] at h
    · split at h
      · simp [errE] at h
      · split at h
        · simp [errE] at h
        · rename_i h2 h3 h4
          simp only [Except.ok.injEq] at h
          subst h
          simp only [Bool.not_eq_true, Bool.not_eq_false, Bool.and_eq_true,
            Bool.not_eq_true'] at h4
          refine ⟨rfl, by omega, h4.2⟩

theorem formatEmailAddressL_ok {l w : List Char} (h : formatEmailAddressL l = .ok w) :
    ∃ u d u2, splitChar '@' ((jsTrimL l).map asciiLower) = [u, d] ∧
      u ≠ [] ∧ d ≠ [] ∧ w = u2 ++ '@' :: d ∧ u2 ≠ [] ∧
      (u2 = u ∨ u2 = u.filter (fun c => c != '.')) := by
  simp only [formatEmailAddressL] at h
  split at h
  · simp [errE] at h
  · split at h
    · simp [errE] at h
    · split at h
      · simp [errE] at h
      · cases hsplit : splitChar '@' ((jsTrimL l).map asciiLower) with
        | nil => rw [hsplit] at h; simp [errE] at h
        | cons u rest =>
          cases rest with
          | nil => rw [hsplit] at h; simp [errE] at h
          | cons d rest2 =>
            cases rest2 with
            | cons e rest3 => rw [hsplit] at h; simp [errE] at h
            | nil =>
              rw [hsplit] at h
              dsimp only at h
              split at h
              · simp [errE] at h
              · split at h
                · simp [errE] at h
                · rename_i hu hd
                  split at h
                  · split at h
                    · simp [errE] at h
                    · rename_i hu2
                      simp only [Except.ok.injEq] at h
                      exact ⟨u, d, _, rfl, hu, hd, h.symm, hu2, Or.inr rfl⟩
                  · simp only [Except.ok.injEq] at h
                    exact ⟨u, d, _, rfl, hu, hd, h.symm, hu, Or.inl rfl⟩

/-! ## Helper lemmas: split characterization. -/

theorem splitChar_ne_nil (sep : Char) : ∀ l, splitChar sep l ≠ [] := by
  intro l
  induction l with
  | nil => simp [splitChar]
  | cons c rest ih =>
    unfold splitChar
    split
    · simp
    · cases hs : splitChar sep rest with
      | nil => simp
      | cons p ps => simp

theorem splitChar_eq_single {sep : Char} : ∀ {l d : List Char},
    splitChar sep l = [d] → l = d ∧ sep ∉ d := by
  intro l
  induction l with
  | nil =>
    intro d h
    simp only [splitChar, List.cons.injEq, and_true] at h
    subst h
    exact ⟨rfl, by simp⟩
  | cons c rest ih =>
    intro d h
    unfold splitChar at h
    split at h
    · simp only [List.cons.injEq] at h
      exact absurd h.2 (splitChar_ne_nil sep rest)
    · rename_i hc
      cases hs : splitChar sep rest with
      | nil => exact absurd hs (splitChar_ne_nil sep rest)
      | cons p ps =>
        rw [hs] at h
        simp only [List.cons.injEq] at h
        obtain ⟨h1, h2⟩ := h
        rw [h2] at hs
        obtain ⟨hrest, hmem⟩ := ih hs
        subst hrest
        constructor
        · rw [← h1]
        · rw [← h1]
          intro hm
          rcases List.mem_cons.1 hm with he | he
          · exact hc he.symm
          · exact hmem he

theorem splitChar_eq_pair {sep : Char} : ∀ {l u d : List Char},
    splitChar sep l = [u, d] → l = u ++ sep :: d ∧ sep ∉ u ∧ sep ∉ d := by
  intro l
  induction l with
  | nil => intro u d h; simp [splitChar] at h
  | cons c rest ih =>
    intro u d h
    unfold splitChar at h
    split at h
    · rename_i hc
      simp only [List.cons.injEq] at h
      obtain ⟨hu, hrest⟩ := h
      obtain ⟨hd, hmem⟩ := splitChar_eq_single hrest
      subst hc hd
      rw [← hu]
      exact ⟨rfl, by simp, hmem⟩
    · rename_i hc
      cases hs : splitChar sep rest with
      | nil => exact absurd hs (splitChar_ne_nil sep rest)
      | cons p ps =>
        rw [hs] at h
        simp only [List.cons.injEq] at h
        obtain ⟨h1, h2⟩ := h
        rw [h2] at hs
        obtain ⟨hrest, hpu, hpd⟩ := ih hs
        subst hrest
        rw [← h1]
        refine ⟨rfl, ?_, hpd⟩
        intro hm
        rcases List.mem_cons.1 hm with he | he
        · exact hc he.symm
        · exact hpu he

theorem splitChar_not_mem {sep : Char} : ∀ {l : List Char}, sep ∉ l →
    splitChar sep l = [l] := by
  intro l
  induction l with
  | nil => intro _; rfl
  | cons c rest ih =>
    intro h
    unfold splitChar
    rw [if_neg (fun he => h (List.mem_cons.2 (Or.inl he.symm)))]
    rw [ih (fun hm => h (List.mem_cons_of_mem c hm))]

theorem splitChar_cons (sep c : Char) (rest : List Char) :
    splitChar sep (c :: rest) =
      if c = sep then [] :: splitChar sep rest
      else match splitChar sep rest with
        | [] => [[c]]
        | p :: ps => (c :: p) :: ps := by
  conv_lhs => rw [splitChar]

theorem splitChar_cons_append {sep : Char} {rest : List Char} :
    ∀ {u : List Char}, sep ∉ u →
    splitChar sep (u ++ sep :: rest) = u :: splitChar sep rest := by
  intro u
  induction u with
  | nil => intro _; simp [splitChar]
  | cons c u' ih =>
    intro h
    rw [List.cons_append, splitChar_cons]
    rw [if_neg (fun he => h (List.mem_cons.2 (Or.inl he.symm)))]
    rw [ih (fun hm => h (List.mem_cons_of_mem c hm))]

/-! ## Helper lemmas: head and last membership. -/

theorem mem_of_head? {l : List Char} {c : Char} (h : l.head? = some c) : c ∈ l := by
  cases l with
  | nil => cases h
  | cons a as =>
    simp only [List.head?_cons, Option.some.injEq] at h
    subst h
    exact List.mem_cons_self a as

theorem mem_of_getLast? {l : List Char} {c : Char} (h : l.getLast? = some c) :
    c ∈ l := by
  obtain ⟨ys, rfl⟩ := List.getLast?_eq_some_iff.1 h
  exact List.mem_append.2 (Or.inr (List.mem_singleton.2 rfl))

theorem getLast?_cons_of_ne_nil {c : Char} {l : List Char} (h : l ≠ []) :
    (c :: l).getLast? = l.getLast? := by
  cases hc : l.getLast? with
  | none => exact absurd (List.getLast?_eq_none_iff.1 hc) h
  | some a =>
    obtain ⟨ys, rfl⟩ := List.getLast?_eq_some_iff.1 hc
    rw [← List.cons_append, List.getLast?_append]
    rfl

theorem noLeadWS_iff {l : List Char} : noLeadWS l = true ↔
    ∀ c, l.head? = some c → jsWhitespace c = false := by
  unfold noLeadWS
  cases h : l.head? with
  | none => simp
  | some c =>
    simp only [Bool.not_eq_true', Option.some.injEq]
    constructor
    · intro hw c2 he
      subst he
      exact hw
    · intro hw
      exact hw c rfl

theorem noTrailWS_iff {l : List Char} : noTrailWS l = true ↔
    ∀ c, l.getLast? = some c → jsWhitespace c = false := by
  unfold noTrailWS
  cases h : l.getLast? with
  | none => simp
  | some c =>
    simp only [Bool.not_eq_true', Option.some.injEq]
    constructor
    · intro hw c2 he
      subst he
      exact hw
    · intro hw
      exact hw c rfl

/-! ## Helper lemmas: string/list bridging. -/

theorem toList_asString (l : List Char) : (List.asString l).toList = l := rfl

theorem asString_toList (s : String) : s.toList.asString = s := rfl

theorem mapString_ok {r : Except FmtError (List Char)} {y : String}
    (h : r.map List.asString = .ok y) : r = .ok y.toList := by
  cases r with
  | error e => simp [Except.map] at h
  | ok w =>
    simp only [Except.map, Except.ok.injEq] at h
    subst h
    rw [toList_asString]

theorem mapString_of_ok {r : Except FmtError (List Char)} {w : List Char}
    (h : r = .ok w) : r.map List.asString = .ok w.asString := by
  rw [h]
  rfl

/-! ## Claim C10. -/

/-- Claim C10: in each of the four identifier process operations the
encoding argument is only inspected after normalization (and hashing) have
succeeded; when the normalizer fails, the process operation propagates
exactly the normalizer's InvalidInput error for every encoding value, even
an unrecognized one. -/
theorem c10_encoding_checked_after_normalization :
    ∀ (raw : Option String) (enc : Encoding) (e : FmtError),
      (formatEmailAddress raw = .error e →
        processEmailAddress raw enc = .error e) ∧
      (formatPhoneNumber raw = .error e →
        processPhoneNumber raw enc = .error e) ∧
      (formatGivenName raw = .error e →
        processGivenName raw enc = .error e) ∧
      (formatFamilyName raw = .error e →
        processFamilyName raw enc = .error e) := by
  intro raw enc e
  refine ⟨?_, ?_, ?_, ?_⟩ <;> intro h <;>
    simp [processEmailAddress, processPhoneNumber, processGivenName,
      processFamilyName, h, Except.bind]

/-- Witness for C10: a failing email input processed with an unrecognized
encoding value still reports the normalizer's error. -/
theorem c10_witness :
    processEmailAddress (some "quinn") "bogus" =
      .error (.invalidInput "Email is not of the form user@domain") :=
  (c10_encoding_checked_after_normalization (some "quinn") "bogus"
    (.invalidInput "Email is not of the form user@domain")).1 rfl

/-! ## Claim C4. -/

/-- Claim C4 counterexample: `"a\tb@example.com"` has an internal tab — an
internal whitespace character — in its trimmed value, yet
formatEmailAddress accepts it instead of failing with InvalidInput. -/
theorem c4_counterexample :
    '\t' ∈ jsTrimL ("a\tb@example.com".toList) ∧
    jsWhitespace '\t' = true ∧
    formatEmailAddress (some "a\tb@example.com") = .ok "a\tb@example.com" := by
  refine ⟨by decide, by decide, by rfl⟩

/-- Claim C4 (amended): the internal-whitespace check of formatEmailAddress
(`trimmedEmail.includes(' ')`) tests only the ASCII space character: every
input whose trimmed value contains a space fails with InvalidInput, while
other internal whitespace characters such as a tab are not rejected by this
check. -/
theorem c4_amended_internal_space_fails (s : String)
    (h : ' ' ∈ jsTrimL s.toList) :
    formatEmailAddress (some s) =
      .error (.invalidInput "Email address contains intermediate whitespace.") := by
  have hne : jsTrimL s.toList ≠ [] := List.ne_nil_of_mem h
  have hsne : s.toList ≠ [] := by
    intro he
    apply hne
    rw [he]
    rfl
  have h2 : ' ' ∈ jsTrimL s.data := h
  have hne2 : jsTrimL s.data ≠ [] := hne
  have hsne2 : s.data ≠ [] := hsne
  simp [formatEmailAddress, formatEmailAddressL, hsne2, hne2, h2, errE, Except.map]

/-- Witness for C4 (amended) at the concrete input `"a b@c"`. -/
theorem c4_witness :
    formatEmailAddress (some "a b@c") =
      .error (.invalidInput "Email address contains intermediate whitespace.") :=
  c4_amended_internal_space_fails "a b@c" (by decide)

/-! ## Claim C2. -/

/-- Claim C2 counterexample: formatFamilyName is not idempotent.  On
`"quinn , jr"` the end-anchored suffix regex matches from the comma, so the
first application returns `"quinn "` with a trailing space, and the second
application trims that space away, giving a different result. -/
theorem c2_counterexample :
    formatFamilyName (some "quinn , jr") = .ok "quinn " ∧
    formatFamilyName (some "quinn ") = .ok "quinn" ∧
    ("quinn " : String) ≠ "quinn" := by
  refine ⟨by rfl, by rfl, by decide⟩

/-- Claim C2 (amended): formatFamilyName is idempotent on every result that
does not end in whitespace: if `formatFamilyName x = y` and `y` has no
trailing whitespace character, then `formatFamilyName y = y`.  (Suffix
stripping can leave a trailing space, and on such results a second
application further trims, as the counterexample shows.) -/
theorem c2_family_name_idempotent_amended (x y : String)
    (h : formatFamilyName (some x) = .ok y)
    (htr : noTrailWS y.toList = true) :
    formatFamilyName (some y) = .ok y := by
  have hL : formatFamilyNameL x.toList = .ok y.toList := mapString_ok h
  obtain ⟨hw, hwne⟩ := formatFamilyNameL_ok hL
  have hpre : y.toList <+: (jsTrimL x.toList).map asciiLower := by
    rw [hw]
    exact stripLoop_isPre _ _
  have hdone : stripOnce y.toList = none := by
    rw [hw]
    exact stripLoop_done _ _ (le_refl _)
  have hhead : ∀ c, y.toList.head? = some c → jsWhitespace c = false := by
    intro c hc
    have h1 : ((jsTrimL x.toList).map asciiLower).head? = some c := by
      rw [head?_of_isPre hpre hwne]
      exact hc
    rw [List.head?_map] at h1
    cases h2 : (jsTrimL x.toList).head? with
    | none => rw [h2] at h1; cases h1
    | some c0 =>
      rw [h2] at h1
      simp only [Option.map_some'] at h1
      cases h1
      rw [ws_asciiLower]
      exact jsTrimL_head_not_ws h2
  have hfix : ∀ c ∈ y.toList, asciiLower c = c := by
    intro c hc
    have hct : c ∈ (jsTrimL x.toList).map asciiLower :=
      List.IsPrefix.mem hc hpre
    obtain ⟨c0, _, rfl⟩ := List.mem_map.1 hct
    exact asciiLower_idem c0
  have htrim : jsTrimL y.toList = y.toList :=
    jsTrimL_eq_self hhead (noTrailWS_iff.1 htr)
  have hmap : y.toList.map asciiLower = y.toList := map_asciiLower_id hfix
  have hLy : formatFamilyNameL y.toList = .ok y.toList := by
    unfold formatFamilyNameL
    rw [if_neg hwne]
    simp only [htrim, hmap]
    rw [if_neg hwne]
    rw [stripLoop_of_none hdone]
    rw [if_neg hwne]
  have hdef : formatFamilyName (some y) =
      (formatFamilyNameL y.toList).map List.asString := rfl
  rw [hdef, hLy]
  simp only [Except.map]
  rw [asString_toList]

/-- Witness for C2 (amended): `"quinn, jr."` normalizes to `"quinn"`, which
has no trailing whitespace and is a fixed point of formatFamilyName. -/
theorem c2_witness : formatFamilyName (some "quinn") = .ok "quinn" :=
  c2_family_name_idempotent_amended "quinn, jr." "quinn" (by rfl) (by decide)

/-! ## Claim C3. -/

theorem phone_shape {s y : String} (h : formatPhoneNumber (some s) = .ok y) :
    y.toList ≠ [] ∧ noLeadWS y.toList = true ∧ noTrailWS y.toList = true := by
  obtain ⟨hw, hne⟩ := formatPhoneNumberL_ok (mapString_ok h)
  rw [hw]
  refine ⟨by simp, ?_, ?_⟩
  · rw [noLeadWS_iff]
    intro c hc
    simp only [List.head?_cons, Option.some.injEq] at hc
    subst hc
    decide
  · rw [noTrailWS_iff]
    intro c hc
    rw [getLast?_cons_of_ne_nil hne] at hc
    exact not_ws_of_digit (List.mem_filter.1 (mem_of_getLast? hc)).2

theorem given_shape {s y : String} (h : formatGivenName (some s) = .ok y) :
    y.toList ≠ [] ∧ noLeadWS y.toList = true ∧ noTrailWS y.toList = true := by
  obtain ⟨hw, hne⟩ := formatGivenNameL_ok (mapString_ok h)
  refine ⟨hne, ?_, ?_⟩
  · rw [noLeadWS_iff]
    intro c hc
    rw [hw] at hc
    exact jsTrimL_head_not_ws hc
  · rw [noTrailWS_iff]
    intro c hc
    rw [hw] at hc
    exact jsTrimL_getLast_not_ws hc

theorem region_shape {s y : String} (h : formatRegionCode (some s) = .ok y) :
    y.toList ≠ [] ∧ noLeadWS y.toList = true ∧ noTrailWS y.toList = true := by
  obtain ⟨hw, hlen, hall⟩ := formatRegionCodeL_ok (mapString_ok h)
  have hne : y.toList ≠ [] := by
    intro he
    rw [he] at hlen
    cases hlen
  refine ⟨hne, ?_, ?_⟩
  · rw [noLeadWS_iff]
    intro c hc
    exact not_ws_of_upperAZ (List.all_eq_true.1 hall c (mem_of_head? hc))
  · rw [noTrailWS_iff]
    intro c hc
    exact not_ws_of_upperAZ (List.all_eq_true.1 hall c (mem_of_getLast? hc))

theorem postal_shape {s y : String} (h : formatPostalCode (some s) = .ok y) :
    y.toList ≠ [] ∧ noLeadWS y.toList = true ∧ noTrailWS y.toList = true := by
  obtain ⟨hw, hne⟩ := formatPostalCodeL_ok (mapString_ok h)
  refine ⟨hne, ?_, ?_⟩
  · rw [noLeadWS_iff]
    intro c hc
    rw [hw] at hc
    exact jsTrimL_head_not_ws hc
  · rw [noTrailWS_iff]
    intro c hc
    rw [hw] at hc
    exact jsTrimL_getLast_not_ws hc

theorem email_shape {s y : String} (h : formatEmailAddress (some s) = .ok y) :
    y.toList ≠ [] ∧ noTrailWS y.toList = true := by
  obtain ⟨u, d, u2, hsplit, hu, hd, hw, hu2, _⟩ :=
    formatEmailAddressL_ok (mapString_ok h)
  constructor
  · rw [hw]
    simp
  · rw [noTrailWS_iff]
    intro c hc
    rw [hw, List.getLast?_append, getLast?_cons_of_ne_nil hd] at hc
    cases hdl : d.getLast? with
    | none => exact absurd (List.getLast?_eq_none_iff.1 hdl) hd
    | some a =>
      rw [hdl] at hc
      have hac : (some a : Option Char) = some c := hc
      simp only [Option.some.injEq] at hac
      subst hac
      obtain ⟨hdecomp, _, _⟩ := splitChar_eq_pair hsplit
      have hlast : ((jsTrimL s.toList).map asciiLower).getLast? = some a := by
        rw [hdecomp, List.getLast?_append, getLast?_cons_of_ne_nil hd, hdl]
        rfl
      rw [List.getLast?_map] at hlast
      cases h2 : (jsTrimL s.toList).getLast? with
      | none => rw [h2] at hlast; cases hlast
      | some c0 =>
        rw [h2] at hlast
        simp only [Option.map_some'] at hlast
        cases hlast
        rw [ws_asciiLower]
        exact jsTrimL_getLast_not_ws h2

theorem family_shape {s y : String} (h : formatFamilyName (some s) = .ok y) :
    y.toList ≠ [] ∧ noLeadWS y.toList = true := by
  obtain ⟨hw, hne⟩ := formatFamilyNameL_ok (mapString_ok h)
  refine ⟨hne, ?_⟩
  rw [noLeadWS_iff]
  intro c hc
  have hpre : y.toList <+: (jsTrimL s.toList).map asciiLower := by
    rw [hw]
    exact stripLoop_isPre _ _
  have h1 : ((jsTrimL s.toList).map asciiLower).head? = some c := by
    rw [head?_of_isPre hpre hne]
    exact hc
  rw [List.head?_map] at h1
  cases h2 : (jsTrimL s.toList).head? with
  | none => rw [h2] at h1; cases h1
  | some c0 =>
    rw [h2] at h1
    simp only [Option.map_some'] at h1
    cases h1
    rw [ws_asciiLower]
    exact jsTrimL_head_not_ws h2

/-- Claim C3 counterexample: two normalizers violate the claimed
no-leading/trailing-whitespace invariant.  formatFamilyName on
`"quinn , jr"` returns `"quinn "` with a trailing space, and
formatEmailAddress on `".\ta@gmail.com"` (Gmail dot-removal exposing an
internal tab) returns `"\ta@gmail.com"` with a leading tab. -/
theorem c3_counterexample :
    formatFamilyName (some "quinn , jr") = .ok "quinn " ∧
    ("quinn " : String).toList.getLast? = some ' ' ∧ jsWhitespace ' ' = true ∧
    formatEmailAddress (some ".\ta@gmail.com") = .ok "\ta@gmail.com" ∧
    ("\ta@gmail.com" : String).toList.head? = some '\t' ∧
    jsWhitespace '\t' = true := by
  refine ⟨by rfl, by rfl, by decide, by rfl, by rfl, by decide⟩

/-- Claim C3 (amended): every successful normalizer result is non-empty;
the phone, given-name, region-code and postal-code results contain no
leading and no trailing whitespace; the email result contains no trailing
whitespace (but may begin with whitespace exposed by Gmail dot-removal);
and the family-name result contains no leading whitespace (but suffix
stripping may leave trailing whitespace). -/
theorem c3_amended_normalizer_results :
    (∀ s y, formatPhoneNumber (some s) = .ok y →
      y.toList ≠ [] ∧ noLeadWS y.toList = true ∧ noTrailWS y.toList = true) ∧
    (∀ s y, formatGivenName (some s) = .ok y →
      y.toList ≠ [] ∧ noLeadWS y.toList = true ∧ noTrailWS y.toList = true) ∧
    (∀ s y, formatRegionCode (some s) = .ok y →
      y.toList ≠ [] ∧ noLeadWS y.toList = true ∧ noTrailWS y.toList = true) ∧
    (∀ s y, formatPostalCode (some s) = .ok y →
      y.toList ≠ [] ∧ noLeadWS y.toList = true ∧ noTrailWS y.toList = true) ∧
    (∀ s y, formatEmailAddress (some s) = .ok y →
      y.toList ≠ [] ∧ noTrailWS y.toList = true) ∧
    (∀ s y, formatFamilyName (some s) = .ok y →
      y.toList ≠ [] ∧ noLeadWS y.toList = true) :=
  ⟨fun _ _ h => phone_shape h, fun _ _ h => given_shape h,
   fun _ _ h => region_shape h, fun _ _ h => postal_shape h,
   fun _ _ h => email_shape h, fun _ _ h => family_shape h⟩

/-- Witness for C3 (amended) at concrete normalizations. -/
theorem c3_witness :
    (("+18005550100" : String).toList ≠ [] ∧
      noLeadWS ("+18005550100" : String).toList = true ∧
      noTrailWS ("+18005550100" : String).toList = true) ∧
    (("alex" : String).toList ≠ [] ∧
      noLeadWS ("alex" : String).toList = true ∧
      noTrailWS ("alex" : String).toList = true) :=
  ⟨c3_amended_normalizer_results.1 "1 800 555 0100" "+18005550100" (by rfl),
   c3_amended_normalizer_results.2.1 " Mr. Alex   " "alex" (by rfl)⟩

/-! ## Claim C6. -/

theorem eq_empty_of_toList_nil {s : String} (h : s.toList = []) : s = "" := by
  cases s with
  | mk data =>
    have h2 : data = [] := h
    subst h2
    rfl

theorem failsInvalid_map {r : Except FmtError (List Char)} :
    failsInvalid (r.map List.asString) = failsInvalid r := by
  cases r with
  | error e => cases e; rfl
  | ok w => rfl

theorem formatPhoneNumberL_eq {l : List Char} (h1 : l ≠ []) (h2 : jsTrimL l ≠ []) :
    formatPhoneNumberL l =
      (if (jsTrimL l).filter isDigitB = []
        then errE "Phone number contains no digits."
        else .ok ('+' :: (jsTrimL l).filter isDigitB)) := by
  simp only [formatPhoneNumberL]
  rw [if_neg h1, if_neg h2]

/-- Claim C6: for every non-null, non-blank input string, formatPhoneNumber
returns `+` followed by exactly the digit characters of the trimmed input
in their original order (every non-digit removed), and fails with
InvalidInput exactly when no digit remains; there is no country-code or
length validation, so any input containing at least one digit is
accepted. -/
theorem c6_phone_digit_extraction (s : String)
    (hne : s ≠ "") (hnb : jsTrimL s.toList ≠ []) :
    formatPhoneNumber (some s) =
      (if (jsTrimL s.toList).filter isDigitB = []
        then .error (.invalidInput "Phone number contains no digits.")
        else .ok (('+' :: (jsTrimL s.toList).filter isDigitB).asString)) := by
  have hLne : s.toList ≠ [] := fun he => hne (eq_empty_of_toList_nil he)
  have hdef : formatPhoneNumber (some s) =
      (formatPhoneNumberL s.toList).map List.asString := rfl
  rw [hdef, formatPhoneNumberL_eq hLne hnb]
  by_cases hds : (jsTrimL s.toList).filter isDigitB = []
  · rw [if_pos hds, if_pos hds]
    simp [errE, Except.map]
  · rw [if_neg hds, if_neg hds]
    simp [Except.map]

/-- Witness for C6: the claim's own vector, two spellings of the same
number. -/
theorem c6_witness :
    formatPhoneNumber (some "+44-113-496-0987") = .ok "+441134960987" ∧
    formatPhoneNumber (some "441134960987") = .ok "+441134960987" := by
  constructor
  · rw [c6_phone_digit_extraction "+44-113-496-0987" (by decide) (by decide)]
    rfl
  · rw [c6_phone_digit_extraction "441134960987" (by decide) (by decide)]
    rfl

/-! ## Claim C7. -/

theorem formatRegionCodeL_eq_ok {l : List Char}
    (hlen : ((jsTrimL l).map asciiUpper).length = 2)
    (hall : ((jsTrimL l).map asciiUpper).all isUpperAZ = true) :
    formatRegionCodeL l = .ok ((jsTrimL l).map asciiUpper) := by
  have ht : (jsTrimL l).map asciiUpper ≠ [] := by
    intro he
    rw [he] at hlen
    cases hlen
  have hl : l ≠ [] := by
    intro he
    subst he
    exact ht (by rfl)
  simp only [formatRegionCodeL]
  rw [if_neg hl, if_neg ht]
  rw [if_neg (by omega : ¬((jsTrimL l).map asciiUpper).length ≠ 2)]
  rw [if_neg ?_]
  simp only [Bool.not_eq_true]
  simp [List.isEmpty_iff, ht, hall]

theorem formatRegionCodeL_fails {l : List Char}
    (h : ¬(((jsTrimL l).map asciiUpper).length = 2 ∧
          ((jsTrimL l).map asciiUpper).all isUpperAZ = true)) :
    failsInvalid (formatRegionCodeL l) = true := by
  cases hr : formatRegionCodeL l with
  | error e => cases e; rfl
  | ok w =>
    obtain ⟨hw, hlen, hall⟩ := formatRegionCodeL_ok hr
    rw [hw] at hlen hall
    exact absurd ⟨hlen, hall⟩ h

/-- Claim C7: formatRegionCode succeeds exactly when the
trimmed-then-upper-cased input is exactly 2 characters, each in `A`-`Z`,
returning that upper-cased string; otherwise (1 or 3+ characters, digits,
blank) it fails with InvalidInput, as does a null/undefined input. -/
theorem c7_region_code_boundary :
    (∀ s : String,
      (((jsTrimL s.toList).map asciiUpper).length = 2 ∧
        ((jsTrimL s.toList).map asciiUpper).all isUpperAZ = true) →
      formatRegionCode (some s) =
        .ok ((jsTrimL s.toList).map asciiUpper).asString) ∧
    (∀ s : String,
      ¬(((jsTrimL s.toList).map asciiUpper).length = 2 ∧
        ((jsTrimL s.toList).map asciiUpper).all isUpperAZ = true) →
      failsInvalid (formatRegionCode (some s)) = true) ∧
    formatRegionCode (some "us") = .ok "US" ∧
    failsInvalid (formatRegionCode (some "u")) = true ∧
    failsInvalid (formatRegionCode (some " usa ")) = true ∧
    failsInvalid (formatRegionCode (some " u2 ")) = true ∧
    failsInvalid (formatRegionCode (some "  ")) = true ∧
    failsInvalid (formatRegionCode none) = true := by
  refine ⟨?_, ?_, by rfl, by rfl, by rfl, by rfl, by rfl, by rfl⟩
  · intro s hcond
    have hdef : formatRegionCode (some s) =
        (formatRegionCodeL s.toList).map List.asString := rfl
    rw [hdef, formatRegionCodeL_eq_ok hcond.1 hcond.2]
    rfl
  · intro s hcond
    have hdef : formatRegionCode (some s) =
        (formatRegionCodeL s.toList).map List.asString := rfl
    rw [hdef, failsInvalid_map]
    exact formatRegionCodeL_fails hcond

/-- Witness for C7 at the concrete inputs `"us"` (success) and
`" u s "` (failure). -/
theorem c7_witness :
    formatRegionCode (some "us") = .ok "US" ∧
    failsInvalid (formatRegionCode (some " u s ")) = true := by
  constructor
  · have h := c7_region_code_boundary.1 "us" (by decide)
    exact h.trans (by rfl)
  · exact c7_region_code_boundary.2.1 " u s " (by decide)

/-! ## Claim C9. -/

theorem blank_fails_email {s : String} (h : jsTrimL s.toList = []) :
    failsInvalid (formatEmailAddress (some s)) = true := by
  have hdef : formatEmailAddress (some s) =
      (formatEmailAddressL s.toList).map List.asString := rfl
  rw [hdef, failsInvalid_map]
  simp only [formatEmailAddressL]
  by_cases hl : s.toList = []
  · rw [if_pos hl]
    rfl
  · rw [if_neg hl, if_pos h]
    rfl

theorem blank_fails_phone {s : String} (h : jsTrimL s.toList = []) :
    failsInvalid (formatPhoneNumber (some s)) = true := by
  have hdef : formatPhoneNumber (some s) =
      (formatPhoneNumberL s.toList).map List.asString := rfl
  rw [hdef, failsInvalid_map]
  simp only [formatPhoneNumberL]
  by_cases hl : s.toList = []
  · rw [if_pos hl]
    rfl
  · rw [if_neg hl, if_pos h]
    rfl

theorem blank_fails_given {s : String} (h : jsTrimL s.toList = []) :
    failsInvalid (formatGivenName (some s)) = true := by
  have hdef : formatGivenName (some s) =
      (formatGivenNameL s.toList).map List.asString := rfl
  rw [hdef, failsInvalid_map]
  simp only [formatGivenNameL]
  by_cases hl : s.toList = []
  · rw [if_pos hl]
    rfl
  · rw [if_neg hl, if_pos (by rw [h]; rfl)]
    rfl

theorem blank_fails_family {s : String} (h : jsTrimL s.toList = []) :
    failsInvalid (formatFamilyName (some s)) = true := by
  have hdef : formatFamilyName (some s) =
      (formatFamilyNameL s.toList).map List.asString := rfl
  rw [hdef, failsInvalid_map]
  simp only [formatFamilyNameL]
  by_cases hl : s.toList = []
  · rw [if_pos hl]
    rfl
  · rw [if_neg hl, if_pos (by rw [h]; rfl)]
    rfl

theorem blank_fails_region {s : String} (h : jsTrimL s.toList = []) :
    failsInvalid (formatRegionCode (some s)) = true := by
  have hdef : formatRegionCode (some s) =
      (formatRegionCodeL s.toList).map List.asString := rfl
  rw [hdef, failsInvalid_map]
  simp only [formatRegionCodeL]
  by_cases hl : s.toList = []
  · rw [if_pos hl]
    rfl
  · rw [if_neg hl, if_pos (by rw [h]; rfl)]
    rfl

theorem blank_fails_postal {s : String} (h : jsTrimL s.toList = []) :
    failsInvalid (formatPostalCode (some s)) = true := by
  have hdef : formatPostalCode (some s) =
      (formatPostalCodeL s.toList).map List.asString := rfl
  rw [hdef, failsInvalid_map]
  simp only [formatPostalCodeL]
  by_cases hl : s.toList = []
  · rw [if_pos hl]
    rfl
  · rw [if_neg hl, if_pos h]
    rfl

/-- Claim C9: every failure is the single InvalidInput error kind, and the
failure preconditions are covered: each of the six normalizers and
hashString fails for null/undefined (`none`) and for blank-after-trim
string input; hexEncode and base64Encode fail for `none` and for the empty
byte sequence; and encode fails for every unrecognized encoding value. -/
theorem c9_failure_coverage :
    (formatEmailAddress none =
      .error (.invalidInput "Email address is null or empty.")) ∧
    (∀ s, jsTrimL s.toList = [] →
      failsInvalid (formatEmailAddress (some s)) = true) ∧
    (formatPhoneNumber none =
      .error (.invalidInput "Phone number is null or empty.")) ∧
    (∀ s, jsTrimL s.toList = [] →
      failsInvalid (formatPhoneNumber (some s)) = true) ∧
    (formatGivenName none =
      .error (.invalidInput "Given name is null or empty.")) ∧
    (∀ s, jsTrimL s.toList = [] →
      failsInvalid (formatGivenName (some s)) = true) ∧
    (formatFamilyName none =
      .error (.invalidInput "Family name is null or empty.")) ∧
    (∀ s, jsTrimL s.toList = [] →
      failsInvalid (formatFamilyName (some s)) = true) ∧
    (formatRegionCode none =
      .error (.invalidInput "Region code is null or empty.")) ∧
    (∀ s, jsTrimL s.toList = [] →
      failsInvalid (formatRegionCode (some s)) = true) ∧
    (formatPostalCode none =
      .error (.invalidInput "Postal code is null or empty.")) ∧
    (∀ s, jsTrimL s.toList = [] →
      failsInvalid (formatPostalCode (some s)) = true) ∧
    (hashString none = .error (.invalidInput "String is null.")) ∧
    (∀ s, jsTrimL s.toList = [] →
      failsInvalid (hashString (some s)) = true) ∧
    (hexEncode none = .error (.invalidInput "Byte array is null.")) ∧
    (hexEncode (some []) = .error (.invalidInput "Byte array is empty.")) ∧
    (base64Encode none = .error (.invalidInput "Byte array is null.")) ∧
    (base64Encode (some []) = .error (.invalidInput "Byte array is empty.")) ∧
    (∀ (b : List Nat) (enc : Encoding), enc ≠ "hex" → enc ≠ "base64" →
      failsInvalid (encode b enc) = true) := by
  refine ⟨rfl, fun s h => blank_fails_email h, rfl,
    fun s h => blank_fails_phone h, rfl, fun s h => blank_fails_given h, rfl,
    fun s h => blank_fails_family h, rfl, fun s h => blank_fails_region h,
    rfl, fun s h => blank_fails_postal h, rfl, ?_, rfl, rfl, rfl, rfl, ?_⟩
  · intro s h
    simp only [hashString]
    rw [if_pos h]
    rfl
  · intro b enc h1 h2
    simp only [encode]
    rw [if_neg h1, if_neg h2]
    rfl

/-- Witness for C9: the quantified parts at the blank input `"  "`, and an
unrecognized encoding `"foo"`. -/
theorem c9_witness :
    failsInvalid (formatEmailAddress (some "  ")) = true ∧
    failsInvalid (hashString (some "  ")) = true ∧
    failsInvalid (encode [0] "foo") = true :=
  ⟨c9_failure_coverage.2.1 "  " (by decide),
   c9_failure_coverage.2.2.2.2.2.2.2.2.2.2.2.2.2.1 "  " (by decide),
   c9_failure_coverage.2.2.2.2.2.2.2.2.2.2.2.2.2.2.2.2.2.2 [0] "foo"
     (by decide) (by decide)⟩

/-! ## Claim C5. -/

theorem formatEmailAddressL_eq {l u d : List Char}
    (h1 : l ≠ []) (h2 : jsTrimL l ≠ []) (h3 : ' ' ∉ jsTrimL l)
    (h4 : (jsTrimL l).map asciiLower = u ++ '@' :: d)
    (hmu : '@' ∉ u) (hmd : '@' ∉ d) (hune : u ≠ []) (hdne : d ≠ []) :
    formatEmailAddressL l =
      (if d = "gmail.com".toList ∨ d = "googlemail.com".toList then
        (if u.filter (fun c => c != '.') = [] then
          errE "Email address without the domain name is empty after normalization"
        else .ok (u.filter (fun c => c != '.') ++ '@' :: d))
      else .ok (u ++ '@' :: d)) := by
  have hsp : splitChar '@' ((jsTrimL l).map asciiLower) = [u, d] := by
    rw [h4, splitChar_cons_append hmu, splitChar_not_mem hmd]
  have hcon : (jsTrimL l).contains ' ' = false := by
    rw [← Bool.not_eq_true, List.contains_eq_any_beq, List.any_eq_true]
    rintro ⟨x, hx, hbeq⟩
    rw [beq_iff_eq] at hbeq
    exact h3 (hbeq ▸ hx)
  simp only [formatEmailAddressL]
  rw [if_neg h1, if_neg h2]
  rw [if_neg (by rw [hcon]; exact Bool.false_ne_true)]
  rw [hsp]
  dsimp only
  rw [if_neg hune, if_neg hdne]
  by_cases hg : d = "gmail.com".toList ∨ d = "googlemail.com".toList
  · rw [if_pos hg]
    have hgb : (decide (d = "gmail.com".toList) ||
        decide (d = "googlemail.com".toList)) = true := by
      rcases hg with hg | hg <;> simp [hg]
    rw [if_pos hgb]
  · rw [if_neg hg]
    push_neg at hg
    have hif : (if (decide (d = "gmail.com".toList) ||
        decide (d = "googlemail.com".toList)) = true
        then u.filter (fun c => c != '.') else u) = u := by
      rw [if_neg ?_]
      rw [Bool.or_eq_true, decide_eq_true_eq, decide_eq_true_eq]
      rintro (hc | hc)
      · exact hg.1 hc
      · exact hg.2 hc
    rw [hif, if_neg hune]

theorem formatEmailAddressL_fails {l : List Char}
    (h4 : ¬ ∃ u d, (jsTrimL l).map asciiLower = u ++ '@' :: d ∧
      '@' ∉ u ∧ '@' ∉ d ∧ u ≠ [] ∧ d ≠ []) :
    failsInvalid (formatEmailAddressL l) = true := by
  cases hr : formatEmailAddressL l with
  | error e => cases e; rfl
  | ok w =>
    obtain ⟨u, d, u2, hsplit, hu, hd, _, _, _⟩ := formatEmailAddressL_ok hr
    obtain ⟨hdecomp, hmu, hmd⟩ := splitChar_eq_pair hsplit
    exact absurd ⟨u, d, hdecomp, hmu, hmd, hu, hd⟩ h4

/-- Claim C5: formatEmailAddress lower-cases the trimmed input and splits
it on `@` into exactly two non-empty parts, failing with InvalidInput
otherwise; it removes every `.` from the local-part exactly when the
domain is `gmail.com` or `googlemail.com` (failing if the local-part
becomes empty after this removal), leaves the local-part unchanged for
every other domain, and returns `local@domain`. -/
theorem c5_email_split_and_gmail_dots :
    (∀ (s : String) (u d : List Char),
      s ≠ "" → jsTrimL s.toList ≠ [] → ' ' ∉ jsTrimL s.toList →
      (jsTrimL s.toList).map asciiLower = u ++ '@' :: d →
      '@' ∉ u → '@' ∉ d → u ≠ [] → d ≠ [] →
      formatEmailAddress (some s) =
        (if d = "gmail.com".toList ∨ d = "googlemail.com".toList then
          (if u.filter (fun c => c != '.') = [] then
            .error (.invalidInput
              "Email address without the domain name is empty after normalization")
          else .ok ((u.filter (fun c => c != '.') ++ '@' :: d).asString))
        else .ok ((u ++ '@' :: d).asString))) ∧
    (∀ s : String,
      (¬ ∃ u d, (jsTrimL s.toList).map asciiLower = u ++ '@' :: d ∧
        '@' ∉ u ∧ '@' ∉ d ∧ u ≠ [] ∧ d ≠ []) →
      failsInvalid (formatEmailAddress (some s)) = true) ∧
    formatEmailAddress (some "j.e.f..ferson.Loves.hiking@gmail.com") =
      .ok "jeffersonloveshiking@gmail.com" ∧
    formatEmailAddress (some "jefferson.Loves.hiking@googlemail.com") =
      .ok "jeffersonloveshiking@googlemail.com" ∧
    formatEmailAddress (some "a.b@example.com") = .ok "a.b@example.com" ∧
    failsInvalid (formatEmailAddress (some "@example.com")) = true ∧
    failsInvalid (formatEmailAddress (some "quinn")) = true ∧
    failsInvalid (formatEmailAddress (some "a@b@c")) = true := by
  refine ⟨?_, ?_, by rfl, by rfl, by rfl, by rfl, by rfl, by rfl⟩
  · intro s u d hs h2 h3 h4 hmu hmd hune hdne
    have hLne : s.toList ≠ [] := fun he => hs (eq_empty_of_toList_nil he)
    have hdef : formatEmailAddress (some s) =
        (formatEmailAddressL s.toList).map List.asString := rfl
    rw [hdef, formatEmailAddressL_eq hLne h2 h3 h4 hmu hmd hune hdne]
    by_cases hg : d = "gmail.com".toList ∨ d = "googlemail.com".toList
    · rw [if_pos hg, if_pos hg]
      by_cases hf : u.filter (fun c => c != '.') = []
      · rw [if_pos hf, if_pos hf]
        rfl
      · rw [if_neg hf, if_neg hf]
        rfl
    · rw [if_neg hg, if_neg hg]
      rfl
  · intro s h4
    have hdef : formatEmailAddress (some s) =
        (formatEmailAddressL s.toList).map List.asString := rfl
    rw [hdef, failsInvalid_map]
    exact formatEmailAddressL_fails h4

/-- Witness for C5 at `"QuinnY@EXAMPLE.com"`, whose lowered trimmed form
splits as `quinny` / `example.com`. -/
theorem c5_witness :
    formatEmailAddress (some "QuinnY@EXAMPLE.com") = .ok "quinny@example.com" := by
  have h := c5_email_split_and_gmail_dots.1 "QuinnY@EXAMPLE.com"
    "quinny".toList "example.com".toList (by decide) (by decide) (by decide)
    (by decide) (by decide) (by decide) (by decide) (by decide)
  rw [h]
  rfl

/-! ## Claim C8. -/

theorem hexVal_hexDig : ∀ n, n < 16 → hexVal (hexDig n) = some n := by decide

theorem b64Val_b64Dig : ∀ n, n < 64 → b64Val (b64Dig n) = some n := by decide

theorem b64Dig_ne_pad : ∀ n, n < 64 → b64Dig n ≠ '=' := by decide

theorem hexEncodeL_cons (x : Nat) (rest : List Nat) :
    hexEncodeL (x :: rest) =
      hexDig (x / 16 % 16) :: hexDig (x % 16) :: hexEncodeL rest := by
  simp [hexEncodeL]

theorem specHexDecode_hexEncodeL : ∀ {b : List Nat}, (∀ x ∈ b, x < 256) →
    specHexDecode (hexEncodeL b) = some b := by
  intro b
  induction b with
  | nil => intro _; rfl
  | cons x rest ih =>
    intro h
    have hx : x < 256 := h x (List.mem_cons_self x rest)
    rw [hexEncodeL_cons]
    simp only [specHexDecode]
    rw [hexVal_hexDig (x / 16 % 16) (by omega), hexVal_hexDig (x % 16) (by omega)]
    rw [ih (fun y hy => h y (List.mem_cons_of_mem x hy))]
    dsimp only
    simp only [Option.some.injEq, List.cons.injEq, and_true]
    omega

theorem hexEncodeL_length : ∀ (b : List Nat),
    (hexEncodeL b).length = 2 * b.length := by
  intro b
  induction b with
  | nil => rfl
  | cons x rest ih =>
    rw [hexEncodeL_cons]
    simp only [List.length_cons, ih]
    omega

theorem hexDig_mem_digits : ∀ n, n < 16 →
    hexDig n ∈ "0123456789abcdef".toList := by decide

theorem hexEncodeL_chars : ∀ (b : List Nat),
    ∀ c ∈ hexEncodeL b, c ∈ "0123456789abcdef".toList := by
  intro b
  induction b with
  | nil => intro c hc; cases hc
  | cons x rest ih =>
    intro c hc
    rw [hexEncodeL_cons] at hc
    rcases List.mem_cons.1 hc with rfl | hc2
    · exact hexDig_mem_digits _ (by omega)
    · rcases List.mem_cons.1 hc2 with rfl | hc3
      · exact hexDig_mem_digits _ (by omega)
      · exact ih c hc3

theorem specBase64Decode_base64EncodeL :
    ∀ (b : List Nat), (∀ x ∈ b, x < 256) →
      specBase64Decode (base64EncodeL b) = some b
  | [] => fun _ => rfl
  | [a] => fun h => by
    have ha : a < 256 := h a (List.mem_cons_self a [])
    simp only [base64EncodeL, specBase64Decode]
    rw [b64Val_b64Dig (a / 4 % 64) (by omega),
      b64Val_b64Dig (a % 4 * 16) (by omega)]
    dsimp only
    simp only [and_self, if_true, Option.some.injEq, List.cons.injEq, and_true]
    omega
  | [a, b] => fun h => by
    have ha : a < 256 := h a (by simp)
    have hb : b < 256 := h b (by simp)
    simp only [base64EncodeL, specBase64Decode]
    rw [b64Val_b64Dig (a / 4 % 64) (by omega),
      b64Val_b64Dig ((a % 4 * 16 + b / 16) % 64) (by omega)]
    dsimp only
    rw [if_neg (b64Dig_ne_pad (b % 16 * 4) (by omega))]
    rw [b64Val_b64Dig (b % 16 * 4) (by omega)]
    dsimp only
    simp only [if_true, Option.some.injEq, List.cons.injEq, and_true]
    constructor
    · omega
    · omega
  | a :: b :: c :: rest => fun h => by
    have ha : a < 256 := h a (by simp)
    have hb : b < 256 := h b (by simp)
    have hc : c < 256 := h c (by simp)
    have ih := specBase64Decode_base64EncodeL rest
      (fun y hy => h y (by simp [hy]))
    simp only [base64EncodeL, specBase64Decode]
    rw [b64Val_b64Dig (a / 4 % 64) (by omega),
      b64Val_b64Dig ((a % 4 * 16 + b / 16) % 64) (by omega)]
    dsimp only
    rw [if_neg (b64Dig_ne_pad ((b % 16 * 4 + c / 64) % 64) (by omega))]
    rw [b64Val_b64Dig ((b % 16 * 4 + c / 64) % 64) (by omega)]
    dsimp only
    rw [if_neg (b64Dig_ne_pad (c % 64) (by omega))]
    rw [b64Val_b64Dig (c % 64) (by omega), ih]
    dsimp only
    simp only [Option.some.injEq, List.cons.injEq, and_true]
    refine ⟨by omega, by omega, by omega⟩

/-- Claim C8: for every non-empty byte sequence, hexEncode produces
lowercase hexadecimal (two characters per byte, no separators) and
base64Encode produces RFC 4648 base64 with `=` padding, and applying the
standard decodings reproduces the bytes exactly; the repository's own
encoder vectors are reproduced. -/
theorem c8_encoding_round_trip :
    (∀ b : List Nat, b ≠ [] → (∀ x ∈ b, x < 256) →
      hexEncode (some b) = .ok (hexEncodeL b).asString ∧
      specHexDecode (hexEncodeL b) = some b ∧
      (hexEncodeL b).length = 2 * b.length ∧
      (∀ c ∈ hexEncodeL b, c ∈ "0123456789abcdef".toList) ∧
      base64Encode (some b) = .ok (base64EncodeL b).asString ∧
      specBase64Decode (base64EncodeL b) = some b) ∧
    hexEncode (some (utf8Bytes "acK123")) = .ok "61634b313233" ∧
    hexEncode (some (utf8Bytes "999_XYZ")) = .ok "3939395f58595a" ∧
    base64Encode (some (utf8Bytes "acK123")) = .ok "YWNLMTIz" ∧
    base64Encode (some (utf8Bytes "999_XYZ")) = .ok "OTk5X1hZWg==" := by
  refine ⟨?_, by rfl, by rfl, by rfl, by rfl⟩
  intro b hne hbytes
  have hlen0 : ¬ b.length = 0 := fun he => hne (List.length_eq_zero.1 he)
  refine ⟨?_, specHexDecode_hexEncodeL hbytes, hexEncodeL_length b,
    hexEncodeL_chars b, ?_, specBase64Decode_base64EncodeL b hbytes⟩
  · simp only [hexEncode]
    rw [if_neg hlen0]
  · simp only [base64Encode]
    rw [if_neg hlen0]

/-- Witness for C8 at the concrete byte sequence `[0, 255]`. -/
theorem c8_witness :
    hexEncode (some [0, 255]) = .ok (hexEncodeL [0, 255]).asString ∧
    specHexDecode (hexEncodeL [0, 255]) = some [0, 255] ∧
    specBase64Decode (base64EncodeL [0, 255]) = some [0, 255] := by
  obtain ⟨h1, h2, _, _, _, h6⟩ :=
    c8_encoding_round_trip.1 [0, 255] (by decide) (by decide)
  exact ⟨h1, h2, h6⟩

/-! ## Claim C1. -/

theorem sha256_ne_nil (m : List Nat) : sha256 m ≠ [] := by
  intro h
  simp [sha256, wordBytes] at h

theorem email_result_nonblank {r : Option String} {n : String}
    (h : formatEmailAddress r = .ok n) : jsTrimL n.toList ≠ [] := by
  cases r with
  | none => simp [formatEmailAddress, errE] at h
  | some s =>
    obtain ⟨u, d, u2, _, _, hd, hw, hu2, _⟩ :=
      formatEmailAddressL_ok (mapString_ok h)
    have hm : '@' ∈ n.toList := by
      rw [hw]
      exact List.mem_append.2 (Or.inr (List.mem_cons_self _ _))
    exact jsTrimL_ne_nil_of_mem hm (by decide)

/-- Claim C1: for every raw input accepted by formatEmailAddress,
processEmailAddress with HEX returns the lowercase hexadecimal SHA-256
digest of the UTF-8 bytes of the normalized address, and with BASE64 the
padded base64 rendering of the same digest; in particular
`processEmailAddress("  ALEXZ@example.com   ", ·)` yields the digest of
`"alexz@example.com"` in both encodings (so all whitespace/case variants of
one logical address hash identically). -/
theorem c1_process_email_hash :
    (∀ (r : Option String) (n : String), formatEmailAddress r = .ok n →
      processEmailAddress r Encoding.HEX =
        .ok (hexEncodeL (sha256 (utf8Bytes n))).asString ∧
      processEmailAddress r Encoding.BASE64 =
        .ok (base64EncodeL (sha256 (utf8Bytes n))).asString) ∧
    processEmailAddress (some "  ALEXZ@example.com   ") Encoding.HEX =
      .ok "509e933019bb285a134a9334b8bb679dff79d0ce023d529af4bd744d47b4fd8a" ∧
    (hexEncodeL (sha256 (utf8Bytes "alexz@example.com"))).asString =
      "509e933019bb285a134a9334b8bb679dff79d0ce023d529af4bd744d47b4fd8a" ∧
    processEmailAddress (some "  ALEXZ@example.com   ") Encoding.BASE64 =
      .ok "UJ6TMBm7KFoTSpM0uLtnnf950M4CPVKa9L10TUe0/Yo=" ∧
    (base64EncodeL (sha256 (utf8Bytes "alexz@example.com"))).asString =
      "UJ6TMBm7KFoTSpM0uLtnnf950M4CPVKa9L10TUe0/Yo=" := by
  refine ⟨?_, by rfl, by rfl, by rfl, by rfl⟩
  intro r n h
  have hnb := email_result_nonblank h
  have hhash : hashString (some n) = .ok (sha256 (utf8Bytes n)) := by
    simp only [hashString]
    rw [if_neg hnb]
  have hlen : ¬(sha256 (utf8Bytes n)).length = 0 := by
    rw [List.length_eq_zero]
    exact sha256_ne_nil _
  constructor
  · show (formatEmailAddress r).bind
      (fun n2 => hashAndEncode n2 Encoding.HEX) = _
    rw [h]
    show hashAndEncode n Encoding.HEX = _
    unfold hashAndEncode
    rw [hhash]
    show encode (sha256 (utf8Bytes n)) Encoding.HEX = _
    unfold encode
    rw [if_pos (show (Encoding.HEX : String) = "hex" from rfl)]
    simp only [hexEncode]
    rw [if_neg hlen]
  · show (formatEmailAddress r).bind
      (fun n2 => hashAndEncode n2 Encoding.BASE64) = _
    rw [h]
    show hashAndEncode n Encoding.BASE64 = _
    unfold hashAndEncode
    rw [hhash]
    show encode (sha256 (utf8Bytes n)) Encoding.BASE64 = _
    unfold encode
    rw [if_neg (by decide : ¬(Encoding.BASE64 : String) = "hex"),
      if_pos (show (Encoding.BASE64 : String) = "base64" from rfl)]
    simp only [base64Encode]
    rw [if_neg hlen]

/-- Witness for C1 at the normalized address itself. -/
theorem c1_witness :
    processEmailAddress (some "alexz@example.com") Encoding.HEX =
      .ok (hexEncodeL (sha256 (utf8Bytes "alexz@example.com"))).asString :=
  (c1_process_email_hash.1 (some "alexz@example.com") "alexz@example.com"
    (by rfl)).1

end DataManager
